import Mathlib

/-!
Verification of the trivia_bot round engine (`trivia_core/__init__.py`).

Strings are modelled as `List Char` (Python `str`).  Pure functions of the
source are translated directly; stateful methods become explicit state
passing over an `EngineState` record.  The two third-party text libraries
(`unidecode`, `num2words`) are not part of this repository, so the
normalizer and matcher are parameterized over them; concrete instantiations
faithful to the library behaviour on the inputs exercised by the claims are
given further below.
-/

namespace TriviaBot

/-- Python `str.lower()` (ASCII case folding, which covers every input the
claims exercise). -/
def pyLower (s : List Char) : List Char :=
  s.map Char.toLower

/-- The characters stripped by Python's argumentless `str.strip()`
(ASCII whitespace). -/
def isPyWhitespace (c : Char) : Bool :=
  c = ' ' || c = '\t' || c = '\n' || c = '\x0d' || c = '\x0b' || c = '\x0c'

/-- Python `s.strip(chars)`: remove the characters satisfying `p` from both
ends of `s`. -/
def pyStrip (p : Char → Bool) (s : List Char) : List Char :=
  ((s.dropWhile p).reverse.dropWhile p).reverse

/-- Python `s.strip(' ')`: spaces only. -/
def stripSpaces (s : List Char) : List Char :=
  pyStrip (fun c => c = ' ') s

/-- Python `s.strip()`: all whitespace. -/
def stripWs (s : List Char) : List Char :=
  pyStrip isPyWhitespace s

/-- Python `small == big[:len(small)]`-style check: `p` is a leading block
of `l`. -/
def startsList (p l : List Char) : Bool :=
  match p, l with
  | [], _ => true
  | _ :: _, [] => false
  | a :: as, b :: bs => a = b && startsList as bs

/-- Python `sub in l` on strings: `sub` occurs contiguously inside `l`. -/
def isSubOf (sub l : List Char) : Bool :=
  match l with
  | [] => sub.isEmpty
  | _ :: rest => startsList sub l || isSubOf sub rest

/-- Python `list(set([*xs, *ys]))`, up to order: `xs` together with the
elements of `ys` not already present. -/
def setUnion (xs ys : List (List Char)) : List (List Char) :=
  xs ++ ys.filter (fun y => ¬ (y ∈ xs))

/-- One regex match of `[0-9]+(?:[\.,][0-9]+)?` starting at the head of `l`
(the head is known to be a digit): returns the matched text and the rest. -/
def grabNumber (l : List Char) : List Char × List Char :=
  let run := l.takeWhile Char.isDigit
  let rest := l.dropWhile Char.isDigit
  match rest with
  | sep :: r2 =>
      if (sep = '.' || sep = ',') && (r2.headD ' ').isDigit then
        (run ++ sep :: r2.takeWhile Char.isDigit, r2.dropWhile Char.isDigit)
      else
        (run, rest)
  | [] => (run, rest)

/-- `re.sub(r'[0-9]+(?:[\.,][0-9]+)?', lambda y: num2words(y.group(0)), x)`:
replace every maximal number run using `n2w`; if `n2w` raises on any match
the whole substitution raises (modelled by `none`).  `fuel` bounds the
recursion; every step consumes at least one character, so `l.length + 1`
is always enough. -/
def replaceNumbersAux (n2w : List Char → Option (List Char)) :
    Nat → List Char → Option (List Char)
  | 0, _ => none
  | _ + 1, [] => some []
  | fuel + 1, c :: rest =>
      if c.isDigit then
        let (num, rest') := grabNumber (c :: rest)
        match n2w num, replaceNumbersAux n2w fuel rest' with
        | some w, some tail => some (w ++ tail)
        | _, _ => none
      else
        match replaceNumbersAux n2w fuel rest with
        | some tail => some (c :: tail)
        | none => none

/-- Entry point of the digit-expansion rule. -/
def replaceNumbers (n2w : List Char → Option (List Char)) (l : List Char) :
    Option (List Char) :=
  replaceNumbersAux n2w (l.length + 1) l

/-- The six answer filters of `TriviaCore._answer_variants`, in source
order.  A filter returns `none` when its application raises (the source
catches the exception and keeps the variant list unchanged). -/
def answerFilters (unidec n2w : List Char → Option (List Char)) :
    List (List Char → Option (List (List Char))) :=
  [ fun x => match unidec x with
             | some u => some (if u ≠ x then [u] else [])
             | none => none
  , fun x => match replaceNumbers n2w x with
             | some r => some [r]
             | none => none
  , fun x => some
      ((if '&' ∈ x then [x.flatMap
          (fun c => if c = '&' then "and".toList else [c])] else []) ++
       (if '%' ∈ x then [x.flatMap
          (fun c => if c = '%' then "percent".toList else [c])] else []))
  , fun x => some
      (["a ".toList, "an ".toList, "the ".toList].filterMap
        (fun a => if startsList a x then some (x.drop a.length) else none))
  , fun x => some [x.filter (fun c => ¬ (c = ' '))]
  , fun x => some [x.filter (fun c => ¬ (c ∈ "\'().,\"-".toList))]
  ]

/-- One pass of one filter: iterate over the snapshot `snap` of the variant
list, accumulating `possible_answers = list(set([*possible_answers,
*filter(v)]))` for each `v`; a raising application leaves the accumulator
unchanged. -/
def filterPass (f : List Char → Option (List (List Char)))
    (snap acc : List (List Char)) : List (List Char) :=
  snap.foldl
    (fun acc v =>
      match f v with
      | some new => setUnion acc new
      | none => acc)
    acc

/-- `TriviaCore._answer_variants`: start from `[answer.lower()]` and run the
six filters in order, each over the snapshot of the list it starts with. -/
def answer_variants (unidec n2w : List Char → Option (List Char))
    (answer : List Char) : List (List Char) :=
  (answerFilters unidec n2w).foldl (fun cur f => filterPass f cur cur)
    [pyLower answer]

/-- `TriviaCore._do_check_answer`: some pair of (correct variant, given
variant) has the given variant (space-stripped) at least
`min match_character_count (length of the correct variant)` long and the
given variant (whitespace-stripped) a substring of the correct variant. -/
def do_check_answer (unidec n2w : List Char → Option (List Char))
    (answer correct_answer : List Char) (match_character_count : Nat) : Bool :=
  let correct_answer_variations := answer_variants unidec n2w correct_answer
  let given_answer_variations := answer_variants unidec n2w answer
  correct_answer_variations.any fun cv =>
    given_answer_variations.any fun gv =>
      decide (min match_character_count cv.length ≤ (stripSpaces gv).length)
        && isSubOf (stripWs gv) cv

/-- Modelled from the spec: the repository depends on the external
`unidecode` library ("transliteration to a closest-ASCII form"); the
library itself is not part of the repository.  On ASCII input — which
includes every concrete input appearing in the claims — `unidecode` is the
identity; this model returns non-ASCII characters unchanged as well, which
is irrelevant to every claim below. -/
def unidecModel (s : List Char) : Option (List Char) :=
  some s

/-- Modelled from the spec: the repository depends on the external
`num2words` library ("replacing runs of digits ... by their spelled-out
word form"); the library itself is not part of the repository.  The model
spells out the single digits (the only number the claims exercise is
`"5"`) and reports a failure (`none`, the library raising) elsewhere. -/
def n2wModel (s : List Char) : Option (List Char) :=
  if s = "0".toList then some "zero".toList
  else if s = "1".toList then some "one".toList
  else if s = "2".toList then some "two".toList
  else if s = "3".toList then some "three".toList
  else if s = "4".toList then some "four".toList
  else if s = "5".toList then some "five".toList
  else if s = "6".toList then some "six".toList
  else if s = "7".toList then some "seven".toList
  else if s = "8".toList then some "eight".toList
  else if s = "9".toList then some "nine".toList
  else none

/-! ## Command dispatch (`TriviaCore._commands`, `_handle_command`) -/

/-- The handler slot of a command-table entry (the third tuple component in
`_commands`; the closures only matter by identity here). -/
inductive CmdAction
  | cmdExit
  | cmdUptime
  | cmdNext
  | cmdAlltime
  | cmdYesterday
  | cmdToday
  | cmdWeek
  | cmdMonth
  | cmdYear
  | cmdHelp
  deriving DecidableEq, Repr

/-- One entry of `_commands()`: alias list, help text (`none` hides the
entry from help), handler. -/
structure Command where
  aliases : List (List Char)
  helpText : Option (List Char)
  action : CmdAction
  deriving DecidableEq, Repr

/-- The fixed ordered command table returned by `TriviaCore._commands`. -/
def commands : List Command :=
  [ ⟨[ "exit".toList], none, .cmdExit⟩
  , ⟨["uptime".toList], none, .cmdUptime⟩
  , ⟨["new".toList, "trivia new".toList],
      some "Skip to the next question".toList, .cmdNext⟩
  , ⟨["alltime".toList, "score".toList, "scores".toList],
      some "Scores for all time".toList, .cmdAlltime⟩
  , ⟨["yesterday".toList], some "Scores for yesterday".toList, .cmdYesterday⟩
  , ⟨["today".toList], some "Scores for today".toList, .cmdToday⟩
  , ⟨["week".toList], some "Scores for this week".toList, .cmdWeek⟩
  , ⟨["month".toList], some "Scores for this month".toList, .cmdMonth⟩
  , ⟨["year".toList], some "Scores for this year".toList, .cmdYear⟩
  , ⟨["help".toList], some "Show this help info".toList, .cmdHelp⟩
  ]

/-- `TriviaCore._handle_command`: scan the table in order, run the first
entry whose alias list contains `text` exactly, then stop; no match runs
nothing.  The selected entry is returned. -/
def handle_command (text : List Char) : Option Command :=
  commands.find? (fun command => text ∈ command.aliases)

/-- Claim C5's reading of dispatch, written from the spec's words: match
the *trimmed* command text *case-insensitively* against the alias lists in
table order. -/
def handleCommandSpecC5 (text : List Char) : Option Command :=
  commands.find? (fun command =>
    (command.aliases).any (fun a => pyLower (stripWs text) = pyLower a))

/-! ## Round lifecycle (`_new_question`, `_attempt_answer`,
`_complete_question_round`, `handle_message`)

The durable store (`trivia_core/queries.sql` and
`trivia_core/trivia_database.py` are not under `src/`) is modelled from the
spec: `player_attempt` appends one immutable Player Stat row,
`create_question_round` inserts one open Round row, and
`update_question_round` sets the completion time of the open Round row. -/

/-- One durable Player Stat row, as written by `_player_attempt`. -/
structure StatRow where
  uid : String
  attempts : Nat
  correct : Bool
  deriving DecidableEq, Repr

/-- The Player Stat rows written by the loop in
`_complete_question_round`: one `_player_attempt` call per element of
`set(self._attempts)`, carrying that uid's occurrence count and whether it
equals the winning uid (`None` equals no uid). -/
def completeRoundStats (attempts : List String) (winning_uid : Option String) :
    List StatRow :=
  attempts.dedup.map fun attempt_user =>
    ⟨attempt_user, attempts.count attempt_user,
      decide (some attempt_user = winning_uid)⟩

/-- A persisted question (only the fields the claims touch). -/
structure Question where
  id : Nat
  answer : List Char
  deriving DecidableEq, Repr

/-- One Round row (`create_question_round` / `update_question_round`).
`completeTime = none` while the round is open. -/
structure Round where
  qid : Nat
  startTime : Nat
  completeTime : Option Nat
  deriving DecidableEq, Repr

/-- The engine state owned by `TriviaCore`: the durable Round table and
Player Stat table, the in-memory attempt list, the cached current
question, and whether `on_post_question` has been called. -/
structure EngineState where
  rounds : List Round
  statRows : List StatRow
  attempts : List String
  currentQuestion : Option Question
  hookRegistered : Bool
  deriving DecidableEq, Repr

/-- Modelled from the spec: `update_question_round` (queries.sql, not under
`src/`) "marks the Round row's completion time to now", i.e. sets the
completion time of the open row(s). -/
def closeOpenRounds (rounds : List Round) (t : Nat) : List Round :=
  rounds.map fun r =>
    if r.completeTime = none then { r with completeTime := some t } else r

/-- How many Round rows are open. -/
def openCount (st : EngineState) : Nat :=
  (st.rounds.filter (fun r => r.completeTime = none)).length

/-- `TriviaCore._new_question` (= the spec's `start_round`): reset the
attempt list, draw `nextQ` (`get_random_question`), insert an open Round
row for it at time `t`, and cache it as current.  The
`post_question_handler` hook payload has no state effect. -/
def new_question (st : EngineState) (nextQ : Question) (t : Nat) :
    EngineState :=
  { st with
    attempts := []
    rounds := st.rounds ++ [⟨nextQ.id, t, none⟩]
    currentQuestion := some nextQ }

/-- `TriviaCore._complete_question_round` (= the spec's `complete_round`):
write the Player Stat rows, close the open Round row, then immediately
start the next round. -/
def complete_question_round (st : EngineState) (winning_uid : Option String)
    (nextQ : Question) (t : Nat) : EngineState :=
  let st' := { st with
    statRows := st.statRows ++ completeRoundStats st.attempts winning_uid
    rounds := closeOpenRounds st.rounds t }
  new_question st' nextQ t

/-- The observable outcome of one `handle_message` call. -/
inductive MsgOutcome
  | raisedNoQuestion
  | dispatched (entry : Option Command)
  | answerRecorded (won : Bool)
  deriving DecidableEq, Repr

/-- `TriviaCore.handle_message`: a text starting with the command prefix
`'!'` is dispatched with the prefix stripped; otherwise, if there is no
current question a `ValueError` is raised and nothing changes; otherwise
the attempt is recorded (`_attempt_answer`) and, when the answer matches,
the round is completed with this uid as winner.  Command handlers' own
side effects are outside the claims and are not tracked. -/
def handle_message (unidec n2w : List Char → Option (List Char))
    (min_matching_characters : Nat) (st : EngineState) (uid : String)
    (text : List Char) (nextQ : Question) (t : Nat) :
    MsgOutcome × EngineState :=
  if startsList "!".toList text then
    (.dispatched (handle_command (text.drop 1)), st)
  else
    match st.currentQuestion with
    | none => (.raisedNoQuestion, st)
    | some q =>
        let st' := { st with attempts := st.attempts ++ [uid] }
        if do_check_answer unidec n2w text q.answer min_matching_characters then
          (.answerRecorded true, complete_question_round st' (some uid) nextQ t)
        else
          (.answerRecorded false, st')

/-- `TriviaCore.__init__`: the hooks default to no-ops (not registered),
the attempt list starts empty, and the current question is the restored
last unanswered question, if any (`_get_last_question`).  When a question
is restored, its Round row is the open row of the store. -/
def initState (restored : Option Question) (t0 : Nat) : EngineState :=
  { rounds := match restored with
      | some q => [⟨q.id, t0, none⟩]
      | none => []
    statRows := []
    attempts := []
    currentQuestion := restored
    hookRegistered := false }

/-- `TriviaCore.on_post_question`: record the hook and create the first
round only when no current question exists. -/
def on_post_question (st : EngineState) (nextQ : Question) (t : Nat) :
    EngineState :=
  let st' := { st with hookRegistered := true }
  match st.currentQuestion with
  | none => new_question st' nextQ t
  | some _ => st'

/-- The engine operations reachable from a started state, for the round
invariant: recording an attempt, completing the round (answer win or
`!new`), and re-registering the question hook. -/
inductive Op
  | attempt (uid : String)
  | complete (winning_uid : Option String) (nextQ : Question) (t : Nat)
  | registerHook (nextQ : Question) (t : Nat)

/-- Apply one engine operation. -/
def applyOp (st : EngineState) : Op → EngineState
  | .attempt uid => { st with attempts := st.attempts ++ [uid] }
  | .complete w nextQ t => complete_question_round st w nextQ t
  | .registerHook nextQ t => on_post_question st nextQ t

/-- Apply a sequence of engine operations in order. -/
def applyOps (st : EngineState) (ops : List Op) : EngineState :=
  ops.foldl applyOp st

/-! ## Scoreboard time windows (`TriviaCore._timestamp_midnight`)

The Python code works on `datetime` values in local time and returns
`int(day_start.timestamp())`; since every branch first zeroes the time of
day, the result is always a local midnight and is modelled here as the
proleptic-Gregorian day number of that midnight (days since 1970-01-01,
the standard civil-calendar day count).  `datetime`'s day arithmetic
(`timedelta`, `weekday`, `replace`) is modelled by the day-number
conversions below. -/

/-- Day number (days since 1970-01-01) of a civil date, proleptic
Gregorian. -/
def daysFromCivil (y m d : Int) : Int :=
  let y' := if m ≤ 2 then y - 1 else y
  let era := Int.fdiv y' 400
  let yoe := y' - era * 400
  let mp := (m + 9) % 12
  let doy := Int.fdiv (153 * mp + 2) 5 + d - 1
  let doe := yoe * 365 + Int.fdiv yoe 4 - Int.fdiv yoe 100 + doy
  era * 146097 + doe - 719468

/-- Python `datetime.weekday()` (Monday = 0 … Sunday = 6) of a day number;
1970-01-01 was a Thursday. -/
def pyWeekday (z : Int) : Int :=
  (z + 3) % 7

/-- A local civil date (the date part of `datetime.today()`). -/
structure PyDate where
  year : Int
  month : Int
  day : Int
  deriving DecidableEq, Repr

/-- The two month-normalization `while` loops of the `months_ago`
branch. -/
def normalizeMY (month year : Int) : Int × Int :=
  if month < 1 then normalizeMY (month + 12) (year - 1)
  else if month > 12 then normalizeMY (month - 12) (year + 1)
  else (month, year)
termination_by ((1 - month).toNat + (month - 12).toNat)
decreasing_by
  · omega
  · omega

/-- Which keyword argument of `_timestamp_midnight` is supplied (`elif`
chain: exactly one is honored). -/
inductive Window
  | daysAgo (n : Int)
  | weeksAgo (n : Int)
  | monthsAgo (n : Int)
  | yearsAgo (n : Int)
  deriving DecidableEq, Repr

/-- `TriviaCore._timestamp_midnight`, returning the day number of the
resulting midnight. -/
def timestamp_midnight (today : PyDate) (w : Window) : Int :=
  let day_start := daysFromCivil today.year today.month today.day
  match w with
  | .daysAgo n => day_start - n
  | .weeksAgo n =>
      let day_of_week := (pyWeekday day_start + 1) % 7
      day_start - day_of_week - n * 7
  | .monthsAgo n =>
      let (month, year) := normalizeMY (today.month - n) today.year
      daysFromCivil year month 1
  | .yearsAgo n => daysFromCivil (today.year - n) 1 1

end TriviaBot

namespace TriviaBot

/-- Claim C3's reading of the matcher, written from the claim's words: both
the length test and the substring test use `trim_spaces`, which "removes
space characters from both ends" (the source uses `strip(' ')` for the
length test but argumentless `strip()` — all whitespace — for the
substring test). -/
def doCheckAnswerSpecC3 (unidec n2w : List Char → Option (List Char))
    (answer correct_answer : List Char) (match_character_count : Nat) : Bool :=
  let correct_answer_variations := answer_variants unidec n2w correct_answer
  let given_answer_variations := answer_variants unidec n2w answer
  correct_answer_variations.any fun cv =>
    given_answer_variations.any fun gv =>
      decide (min match_character_count cv.length ≤ (stripSpaces gv).length)
        && isSubOf (stripSpaces gv) cv

/-- A started engine state: exactly one open Round row and a cached
current question. -/
def started (st : EngineState) : Prop :=
  openCount st = 1 ∧ st.currentQuestion ≠ none

end TriviaBot

namespace TriviaBot

theorem startsList_iff {p l : List Char} : startsList p l = true ↔ p <+: l := by
  induction p generalizing l with
  | nil => simp [startsList]
  | cons a as ih =>
    cases l with
    | nil => simp [startsList]
    | cons b bs => simp [startsList, ih, List.cons_prefix_cons]

theorem isSubOf_iff {sub l : List Char} : isSubOf sub l = true ↔ sub <:+: l := by
  induction l with
  | nil => simp [isSubOf, List.isEmpty_iff]
  | cons b bs ih =>
    rw [List.infix_cons_iff]
    simp [isSubOf, startsList_iff, ih]

theorem pyStrip_infix (p : Char → Bool) (s : List Char) : pyStrip p s <:+: s := by
  have h1 : s.dropWhile p <:+ s := List.dropWhile_suffix p
  have h2 : ((s.dropWhile p).reverse.dropWhile p).reverse <+: s.dropWhile p := by
    have h3 := List.reverse_prefix.mpr
      (List.dropWhile_suffix (l := (s.dropWhile p).reverse) p)
    simpa using h3
  exact h2.isInfix.trans h1.isInfix

theorem dropWhile_of_all_false {p : Char → Bool} {s : List Char}
    (h : ∀ c ∈ s, p c = false) : s.dropWhile p = s := by
  cases s with
  | nil => rfl
  | cons c cs =>
    rw [List.dropWhile_cons, h c (List.mem_cons_self c cs)]
    simp

theorem pyStrip_of_all_false {p : Char → Bool} {s : List Char}
    (h : ∀ c ∈ s, p c = false) : pyStrip p s = s := by
  unfold pyStrip
  rw [dropWhile_of_all_false h, dropWhile_of_all_false, List.reverse_reverse]
  intro c hc
  exact h c (List.mem_reverse.mp hc)

theorem mem_setUnion {y : List Char} {xs ys : List (List Char)} :
    y ∈ setUnion xs ys ↔ y ∈ xs ∨ y ∈ ys := by
  simp only [setUnion, List.mem_append, List.mem_filter, decide_eq_true_iff]
  tauto

theorem mem_filterPass_of_mem_acc {f : List Char → Option (List (List Char))}
    {snap acc : List (List Char)} {y : List Char} (h : y ∈ acc) :
    y ∈ filterPass f snap acc := by
  induction snap generalizing acc with
  | nil => exact h
  | cons v vs ih =>
    simp only [filterPass, List.foldl_cons] at *
    apply ih
    cases hfv : f v with
    | none => simpa [hfv] using h
    | some new => simp only [hfv]; exact mem_setUnion.mpr (Or.inl h)

theorem mem_filterPass_of_apply {f : List Char → Option (List (List Char))}
    {snap acc : List (List Char)} {v : List Char} {ys : List (List Char)}
    {y : List Char} (hv : v ∈ snap) (hf : f v = some ys) (hy : y ∈ ys) :
    y ∈ filterPass f snap acc := by
  induction snap generalizing acc with
  | nil => cases hv
  | cons w ws ih =>
    simp only [filterPass, List.foldl_cons] at *
    rcases List.mem_cons.mp hv with rfl | hv'
    · apply mem_filterPass_of_mem_acc
      simp only [hf]
      exact mem_setUnion.mpr (Or.inr hy)
    · exact ih hv'

theorem mem_foldl_filterPass {fs : List (List Char → Option (List (List Char)))}
    {cur : List (List Char)} {y : List Char} (h : y ∈ cur) :
    y ∈ fs.foldl (fun cur f => filterPass f cur cur) cur := by
  induction fs generalizing cur with
  | nil => exact h
  | cons f fs ih => exact ih (mem_filterPass_of_mem_acc h)

theorem pyLower_mem_answer_variants (unidec n2w : List Char → Option (List Char))
    (s : List Char) : pyLower s ∈ answer_variants unidec n2w s := by
  unfold answer_variants
  exact mem_foldl_filterPass (List.mem_singleton.mpr rfl)

theorem answer_variants_ne_nil (unidec n2w : List Char → Option (List Char))
    (s : List Char) : answer_variants unidec n2w s ≠ [] := by
  intro h
  simpa [h] using pyLower_mem_answer_variants unidec n2w s

theorem noSpace_mem_answer_variants (unidec n2w : List Char → Option (List Char))
    (s : List Char) :
    (pyLower s).filter (fun c => ¬ (c = ' ')) ∈ answer_variants unidec n2w s := by
  unfold answer_variants answerFilters
  simp only [List.foldl_cons, List.foldl_nil]
  apply mem_filterPass_of_mem_acc
  apply mem_filterPass_of_apply (v := pyLower s) ?_ rfl (List.mem_singleton.mpr rfl)
  apply mem_filterPass_of_mem_acc
  apply mem_filterPass_of_mem_acc
  apply mem_filterPass_of_mem_acc
  apply mem_filterPass_of_mem_acc
  exact List.mem_singleton.mpr rfl

theorem do_check_answer_eq_true_iff (unidec n2w : List Char → Option (List Char))
    (answer correct_answer : List Char) (mcc : Nat) :
    do_check_answer unidec n2w answer correct_answer mcc = true ↔
      ∃ cv ∈ answer_variants unidec n2w correct_answer,
        ∃ gv ∈ answer_variants unidec n2w answer,
          min mcc cv.length ≤ (stripSpaces gv).length ∧ stripWs gv <:+: cv := by
  simp only [do_check_answer, List.any_eq_true, Bool.and_eq_true,
    decide_eq_true_iff, isSubOf_iff]

end TriviaBot

namespace TriviaBot

/-- C6: the answer matcher is reflexive — for every string `correct` and
every natural `k` with `k ≤ length correct`,
`matches(correct, correct, k)` returns true (for any normalizer rule
functions, i.e. any behaviour of the external text libraries). -/
theorem claim_C6 (unidec n2w : List Char → Option (List Char))
    (correct : List Char) (k : Nat) (hk : k ≤ correct.length) :
    do_check_answer unidec n2w correct correct k = true := by
  rw [do_check_answer_eq_true_iff]
  refine ⟨(pyLower correct).filter (fun c => ¬ (c = ' ')),
    noSpace_mem_answer_variants unidec n2w correct,
    (pyLower correct).filter (fun c => ¬ (c = ' ')),
    noSpace_mem_answer_variants unidec n2w correct, ?_, pyStrip_infix _ _⟩
  have hns : ∀ c ∈ (pyLower correct).filter (fun c => ¬ (c = ' ')),
      decide (c = ' ') = false := by
    intro c hc
    simp only [List.mem_filter, decide_eq_true_iff] at hc
    simpa using hc.2
  rw [stripSpaces, pyStrip_of_all_false hns]
  exact Nat.min_le_right _ _

/-- Witness for C6 at `correct = "ab"`, `k = 1`. -/
theorem claim_C6_witness :
    1 ≤ ("ab".toList).length ∧
      do_check_answer unidecModel n2wModel "ab".toList "ab".toList 1 = true :=
  ⟨by decide, claim_C6 unidecModel n2wModel "ab".toList 1 (by decide)⟩

/-- C7: for every string `s` (and any behaviour of the external rule
libraries, including per-rule failure) the variant computation is total —
exceptions inside a rule are modelled by the rule returning `none` and
never abort the whole pass — and the result is non-empty and contains
`lowercase(s)`. -/
theorem claim_C7 (unidec n2w : List Char → Option (List Char)) (s : List Char) :
    answer_variants unidec n2w s ≠ [] ∧
      pyLower s ∈ answer_variants unidec n2w s :=
  ⟨answer_variants_ne_nil unidec n2w s, pyLower_mem_answer_variants unidec n2w s⟩

/-- C3 fails as stated: for `given = "\tab"`, `correct = "ab"`,
`min_chars = 2`, the code returns true (the substring test strips the
leading tab, since Python `strip()` removes all whitespace) while the
claim's reading — `trim_spaces`, space characters only, in both tests —
yields false. -/
theorem claim_C3_counterexample :
    do_check_answer unidecModel n2wModel "\tab".toList "ab".toList 2 = true ∧
      doCheckAnswerSpecC3 unidecModel n2wModel "\tab".toList "ab".toList 2
        = false := by
  decide

/-- C3 (amended): `matches(given, correct, min_chars)` returns true iff
some correct variant `cv` and given variant `gv` satisfy
`length (trim_spaces gv) ≥ min min_chars (length cv)` — spaces trimmed
from both ends — and `trim_whitespace gv` (all whitespace trimmed from
both ends, Python `strip()`) is a substring of `cv`. -/
theorem claim_C3 (unidec n2w : List Char → Option (List Char))
    (given correct : List Char) (min_chars : Nat) :
    do_check_answer unidec n2w given correct min_chars = true ↔
      ∃ cv ∈ answer_variants unidec n2w correct,
        ∃ gv ∈ answer_variants unidec n2w given,
          min min_chars cv.length ≤ (stripSpaces gv).length ∧
            stripWs gv <:+: cv :=
  do_check_answer_eq_true_iff unidec n2w given correct min_chars

/-- C8: the six concrete matcher cases, evaluated against the modelled
external libraries (identity transliteration on ASCII, digit spelling
with `"5" ↦ "five"`). -/
theorem claim_C8 :
    do_check_answer unidecModel n2wModel "five".toList "5".toList 5 = true ∧
      do_check_answer unidecModel n2wModel "ONEtwoTHREE".toList
        "onetwothree".toList 5 = true ∧
      do_check_answer unidecModel n2wModel "pie".toList "a pie".toList 3
        = true ∧
      do_check_answer unidecModel n2wModel "one and two".toList
        "one & two".toList 5 = true ∧
      do_check_answer unidecModel n2wModel "one".toList "two".toList 5
        = false ∧
      do_check_answer unidecModel n2wModel "abcd".toList "abcde".toList 5
        = false := by
  decide

end TriviaBot

namespace TriviaBot

theorem length_filter_eq_of_nodup {α : Type} [DecidableEq α] {l : List α}
    (h : l.Nodup) (u : α) :
    (l.filter (fun v => v = u)).length = if u ∈ l then 1 else 0 := by
  induction l with
  | nil => simp
  | cons a l ih =>
    rw [List.nodup_cons] at h
    by_cases hau : a = u
    · subst hau
      have hnil : l.filter (fun v => v = a) = [] := by
        rw [List.filter_eq_nil_iff]
        intro v hv
        simp only [decide_eq_true_iff]
        intro he
        exact h.1 (he ▸ hv)
      simp [List.filter_cons, hnil]
    · simp [List.filter_cons, hau, ih h.2, List.mem_cons, Ne.symm hau]

/-- C1: for every attempt list and winner, `complete_round` writes exactly
one Player Stat row per distinct uid of the list — with `attempts` the
uid's occurrence count and `correct` true exactly for the winner uid — no
row for any other uid, and no rows at all for an empty list. -/
theorem claim_C1 (attempts : List String) (winning_uid : Option String) :
    (attempts = [] → completeRoundStats attempts winning_uid = []) ∧
    (∀ u : String,
      ((completeRoundStats attempts winning_uid).filter
          (fun r => r.uid = u)).length = if u ∈ attempts then 1 else 0) ∧
    (∀ r ∈ completeRoundStats attempts winning_uid,
      r.uid ∈ attempts ∧ r.attempts = attempts.count r.uid ∧
        (r.correct = true ↔ winning_uid = some r.uid)) := by
  refine ⟨?_, ?_, ?_⟩
  · rintro rfl
    rfl
  · intro u
    rw [completeRoundStats, List.filter_map, List.length_map]
    have hcomp : ((fun r : StatRow => decide (r.uid = u)) ∘
        (fun v => (⟨v, attempts.count v,
          decide (some v = winning_uid)⟩ : StatRow))) = fun v => decide (v = u) :=
      rfl
    rw [hcomp]
    rw [length_filter_eq_of_nodup attempts.nodup_dedup u]
    simp [List.mem_dedup]
  · intro r hr
    rw [completeRoundStats, List.mem_map] at hr
    obtain ⟨v, hv, rfl⟩ := hr
    refine ⟨List.mem_dedup.mp hv, rfl, ?_⟩
    simp only [decide_eq_true_iff]
    exact eq_comm

/-- Witness for C1 at `attempts = ["a", "b", "a"]`, winner `"a"`. -/
theorem claim_C1_witness :
    (completeRoundStats [] (some "a") = []) ∧
    ((completeRoundStats ["a", "b", "a"] (some "a")).filter
        (fun r => r.uid = "a")).length = 1 ∧
    ((⟨"b", 1, false⟩ : StatRow).uid ∈ (["a", "b", "a"] : List String) ∧
      (⟨"b", 1, false⟩ : StatRow).attempts
        = (["a", "b", "a"] : List String).count "b" ∧
      ((⟨"b", 1, false⟩ : StatRow).correct = true ↔ some "a" = some "b")) := by
  refine ⟨(claim_C1 [] (some "a")).1 rfl, ?_, ?_⟩
  · have h := (claim_C1 ["a", "b", "a"] (some "a")).2.1 "a"
    simpa using h
  · exact (claim_C1 ["a", "b", "a"] (some "a")).2.2 ⟨"b", 1, false⟩ (by decide)

end TriviaBot

namespace TriviaBot

theorem closeOpenRounds_closed (rounds : List Round) (t : Nat) :
    ∀ r ∈ closeOpenRounds rounds t, ¬ (r.completeTime = none) := by
  intro r hr
  rw [closeOpenRounds, List.mem_map] at hr
  obtain ⟨r0, _, rfl⟩ := hr
  by_cases h : r0.completeTime = none <;> simp [h]

theorem filter_closeOpenRounds (rounds : List Round) (t : Nat) :
    (closeOpenRounds rounds t).filter (fun r => r.completeTime = none) = [] := by
  rw [List.filter_eq_nil_iff]
  intro r hr
  simp only [decide_eq_true_eq]
  exact closeOpenRounds_closed rounds t r hr

theorem openCount_complete_question_round (st : EngineState)
    (w : Option String) (q : Question) (t : Nat) :
    openCount (complete_question_round st w q t) = 1 := by
  rw [complete_question_round, new_question, openCount]
  simp only [List.filter_append, filter_closeOpenRounds st.rounds t]
  simp

theorem started_applyOp {st : EngineState} (h : started st) (op : Op) :
    started (applyOp st op) := by
  cases op with
  | attempt u => exact ⟨h.1, h.2⟩
  | complete w q t =>
    refine ⟨openCount_complete_question_round st w q t, ?_⟩
    simp [applyOp, complete_question_round, new_question]
  | registerHook q t =>
    rw [applyOp, on_post_question]
    cases hc : st.currentQuestion with
    | none => exact absurd hc h.2
    | some q0 => exact ⟨h.1, by simp [hc]⟩

theorem started_applyOps {st : EngineState} (h : started st) (ops : List Op) :
    started (applyOps st ops) := by
  induction ops generalizing st with
  | nil => exact h
  | cons op ops ih => exact ih (started_applyOp h op)

/-- C2: from a started engine state (exactly one open Round row, a cached
current question) every sequence of engine operations preserves "exactly
one round is open"; completing a round closes it and immediately appends a
fresh open round for the newly drawn question, which becomes current, and
the in-memory attempt list is reset to empty exactly when that new round
starts — completing resets it, recording an attempt only appends. -/
theorem claim_C2 (st : EngineState) (h : started st) :
    (∀ ops : List Op, openCount (applyOps st ops) = 1) ∧
    (∀ (w : Option String) (q : Question) (t : Nat),
      openCount (complete_question_round st w q t) = 1 ∧
      (complete_question_round st w q t).rounds.getLast? = some ⟨q.id, t, none⟩ ∧
      (complete_question_round st w q t).currentQuestion = some q ∧
      (complete_question_round st w q t).attempts = []) ∧
    (∀ u : String, (applyOp st (.attempt u)).attempts = st.attempts ++ [u]) := by
  refine ⟨fun ops => (started_applyOps h ops).1, fun w q t => ?_, fun u => rfl⟩
  refine ⟨openCount_complete_question_round st w q t, ?_, rfl, rfl⟩
  rw [complete_question_round, new_question]
  simp

/-- Witness for C2 at a started state restored from one open round. -/
theorem claim_C2_witness :
    openCount (applyOps (initState (some ⟨0, "x".toList⟩) 5)
        [.attempt "u", .complete (some "u") ⟨1, "y".toList⟩ 9]) = 1 ∧
      (complete_question_round (initState (some ⟨0, "x".toList⟩) 5)
        none ⟨1, "y".toList⟩ 9).attempts = [] := by
  refine ⟨(claim_C2 (initState (some ⟨0, "x".toList⟩) 5) ⟨by decide, by decide⟩).1
      [.attempt "u", .complete (some "u") ⟨1, "y".toList⟩ 9], ?_⟩
  exact ((claim_C2 (initState (some ⟨0, "x".toList⟩) 5) ⟨by decide, by decide⟩).2.1
      none ⟨1, "y".toList⟩ 9).2.2.2

end TriviaBot

namespace TriviaBot

/-- C5 fails as stated: the source matches the command text exactly
(`text in command[0]`), with no lowercasing and no trimming, so the
command text `"Help"` dispatches nothing, while the claim's
case-insensitive match of the trimmed text selects the help entry. -/
theorem claim_C5_counterexample :
    handle_command "Help".toList = none ∧
      handleCommandSpecC5 "Help".toList =
        some ⟨["help".toList], some "Show this help info".toList, .cmdHelp⟩ := by
  decide

/-- C5 (amended): dispatch performs an exact, case-sensitive match of the
unmodified command text against the alias lists in table order; the first
matching entry is selected and no later entry; text matching no alias
selects nothing (silently ignored). -/
theorem claim_C5 (text : List Char) :
    (∀ e : Command, handle_command text = some e ↔
      (text ∈ e.aliases ∧ ∃ pre post, commands = pre ++ e :: post ∧
        ∀ e' ∈ pre, text ∉ e'.aliases)) ∧
    (handle_command text = none ↔ ∀ e ∈ commands, text ∉ e.aliases) := by
  constructor
  · intro e
    rw [handle_command, List.find?_eq_some]
    simp
  · rw [handle_command, List.find?_eq_none]
    simp

/-- C9 fails as stated: a state restored from an open round in the store
has a current question but no registered question hook; a non-command
message is then handled as an answer attempt, not raised.  (The code
checks `self._current_question is None`, not hook registration.) -/
theorem claim_C9_counterexample :
    (initState (some ⟨0, "x".toList⟩) 5).hookRegistered = false ∧
      startsList "!".toList "hello".toList = false ∧
      (handle_message unidecModel n2wModel 5
          (initState (some ⟨0, "x".toList⟩) 5) "u" "hello".toList
          ⟨1, "y".toList⟩ 9).1 ≠ .raisedNoQuestion := by
  decide

/-- C9 (amended): for every state and non-command text, `handle_message`
raises the usage error exactly when there is no current question — the
state when the engine started over an empty store and no question hook has
been registered since — and in that case records no attempt and changes no
state. -/
theorem claim_C9 (unidec n2w : List Char → Option (List Char)) (mcc : Nat)
    (st : EngineState) (uid : String) (text : List Char) (nextQ : Question)
    (t : Nat) (h : startsList "!".toList text = false) :
    ((handle_message unidec n2w mcc st uid text nextQ t).1
        = .raisedNoQuestion ↔ st.currentQuestion = none) ∧
    (st.currentQuestion = none →
      (handle_message unidec n2w mcc st uid text nextQ t).2 = st) := by
  rw [handle_message]
  have h' : startsList ['!'] text = false := h
  cases hc : st.currentQuestion with
  | none => simp [h', hc]
  | some q =>
    by_cases hchk :
        do_check_answer unidec n2w text q.answer mcc = true <;>
      simp [h', hc, hchk]

/-- Witness for C9 at a fresh empty-store start and the text `"hello"`. -/
theorem claim_C9_witness :
    startsList "!".toList "hello".toList = false ∧
    (((handle_message unidecModel n2wModel 5 (initState none 0) "u"
          "hello".toList ⟨1, "y".toList⟩ 3).1 = .raisedNoQuestion
        ↔ (initState none 0).currentQuestion = none) ∧
      ((initState none 0).currentQuestion = none →
        (handle_message unidecModel n2wModel 5 (initState none 0) "u"
          "hello".toList ⟨1, "y".toList⟩ 3).2 = initState none 0)) :=
  ⟨by decide, claim_C9 unidecModel n2wModel 5 (initState none 0) "u"
    "hello".toList ⟨1, "y".toList⟩ 3 (by decide)⟩

/-- C10: a text starting with the command prefix is always dispatched —
the no-current-question check sits only on the answer path — so the
missing-question usage error is never raised for commands, whatever the
state (no hook registered and no current question included). -/
theorem claim_C10 (unidec n2w : List Char → Option (List Char)) (mcc : Nat)
    (st : EngineState) (uid : String) (text : List Char) (nextQ : Question)
    (t : Nat) (h : startsList "!".toList text = true) :
    (handle_message unidec n2w mcc st uid text nextQ t).1
        = .dispatched (handle_command (text.drop 1)) ∧
    (handle_message unidec n2w mcc st uid text nextQ t).1
        ≠ .raisedNoQuestion ∧
    (handle_message unidec n2w mcc st uid text nextQ t).2 = st := by
  rw [handle_message]
  have h' : startsList ['!'] text = true := h
  simp [h']

/-- Witness for C10: `"!help"` dispatches the help entry even from a fresh
state with no hook and no current question. -/
theorem claim_C10_witness :
    startsList "!".toList "!help".toList = true ∧
    ((handle_message unidecModel n2wModel 5 (initState none 0) "u"
        "!help".toList ⟨1, "y".toList⟩ 3).1
      = .dispatched (handle_command ("!help".toList.drop 1)) ∧
    (handle_message unidecModel n2wModel 5 (initState none 0) "u"
        "!help".toList ⟨1, "y".toList⟩ 3).1 ≠ .raisedNoQuestion ∧
    (handle_message unidecModel n2wModel 5 (initState none 0) "u"
        "!help".toList ⟨1, "y".toList⟩ 3).2 = initState none 0) :=
  ⟨by decide, claim_C10 unidecModel n2wModel 5 (initState none 0) "u"
    "!help".toList ⟨1, "y".toList⟩ 3 (by decide)⟩

end TriviaBot

namespace TriviaBot

theorem normalizeMY_spec (m y : Int) :
    1 ≤ (normalizeMY m y).1 ∧ (normalizeMY m y).1 ≤ 12 ∧
      (normalizeMY m y).2 * 12 + (normalizeMY m y).1 = y * 12 + m := by
  induction m, y using normalizeMY.induct with
  | case1 m y h ih =>
    rw [normalizeMY.eq_def]
    simp only [if_pos h]
    obtain ⟨ih1, ih2, ih3⟩ := ih
    omega
  | case2 m y h1 h2 ih =>
    rw [normalizeMY.eq_def]
    simp only [if_neg h1, if_pos h2]
    obtain ⟨ih1, ih2, ih3⟩ := ih
    omega
  | case3 m y h1 h2 =>
    rw [normalizeMY.eq_def]
    simp only [if_neg h1, if_neg h2]
    exact ⟨by omega, by omega, by trivial⟩

theorem normalizeMY_zero_2000 : normalizeMY 0 2000 = (12, 1999) := by
  have hs := normalizeMY_spec 0 2000
  rcases h : normalizeMY 0 2000 with ⟨m', y'⟩
  rw [h] at hs
  simp only at hs
  have hm : m' = 12 := by omega
  have hy : y' = 1999 := by omega
  rw [hm, hy]

/-- C4: for every integer `n` (negative included) the window start is:
`daysAgo n` — today's midnight minus `n` days; `weeksAgo n` — the most
recent Sunday's midnight (the unique Sunday at most six days back) minus
`n * 7` days; `monthsAgo n` — midnight of day 1 of the unique
12-normalized month obtained by subtracting `n` months; `yearsAgo n` —
midnight of January 1 of `year - n`.  Anchored at 2000-01-02, `daysAgo 0`
gives 2000-01-02 and `monthsAgo 1` gives 1999-12-01. -/
theorem claim_C4 :
    (∀ (d : PyDate) (n : Int),
      timestamp_midnight d (.daysAgo n)
        = daysFromCivil d.year d.month d.day - n) ∧
    (∀ (d : PyDate) (n : Int), ∃ s : Int,
      pyWeekday s = 6 ∧ s ≤ daysFromCivil d.year d.month d.day ∧
        daysFromCivil d.year d.month d.day - s < 7 ∧
        timestamp_midnight d (.weeksAgo n) = s - n * 7) ∧
    (∀ (d : PyDate) (n : Int), ∃ m' y' : Int,
      1 ≤ m' ∧ m' ≤ 12 ∧ y' * 12 + m' = d.year * 12 + (d.month - n) ∧
        timestamp_midnight d (.monthsAgo n) = daysFromCivil y' m' 1) ∧
    (∀ (d : PyDate) (n : Int),
      timestamp_midnight d (.yearsAgo n) = daysFromCivil (d.year - n) 1 1) ∧
    timestamp_midnight ⟨2000, 1, 2⟩ (.daysAgo 0) = daysFromCivil 2000 1 2 ∧
    timestamp_midnight ⟨2000, 1, 2⟩ (.monthsAgo 1) = daysFromCivil 1999 12 1 := by
  refine ⟨fun d n => rfl, fun d n => ?_, fun d n => ?_, fun d n => rfl, by decide, ?_⟩
  · refine ⟨daysFromCivil d.year d.month d.day
        - (pyWeekday (daysFromCivil d.year d.month d.day) + 1) % 7,
      ?_, ?_, ?_, rfl⟩
    · simp only [pyWeekday]
      omega
    · simp only [pyWeekday]
      omega
    · simp only [pyWeekday]
      omega
  · have hs := normalizeMY_spec (d.month - n) d.year
    rcases hmy : normalizeMY (d.month - n) d.year with ⟨m', y'⟩
    rw [hmy] at hs
    simp only at hs
    refine ⟨m', y', hs.1, hs.2.1, hs.2.2, ?_⟩
    simp [timestamp_midnight, hmy]
  · simp [timestamp_midnight, normalizeMY_zero_2000]

end TriviaBot

namespace TriviaBot

/-- Sanity anchors for the calendar model: the epoch, a known day number
(2000-01-02 = day 10958), leap-century behaviour, and known weekdays
(2000-01-02 was a Sunday). -/
theorem daysFromCivil_anchors :
    daysFromCivil 1970 1 1 = 0 ∧ daysFromCivil 2000 1 2 = 10958 ∧
      daysFromCivil 1999 12 1 = 10926 ∧
      daysFromCivil 2000 2 29 + 1 = daysFromCivil 2000 3 1 ∧
      daysFromCivil 1900 2 28 + 1 = daysFromCivil 1900 3 1 ∧
      pyWeekday (daysFromCivil 2000 1 2) = 6 := by
  decide

end TriviaBot
